import Mathlib

/-!
Verification of the otgorm tracing callbacks (statement reconstruction and
span lifecycle) against a shallow embedding of the Go source.

The embedding covers:
* the argument values that can appear in `scope.SQLVars` and their Go
  renderings (`fmt.Sprintf` with `%v` / `%s`), including Go's `reflect`
  kind dispatch used by `setStatement`;
* `setStatement` (statement reconstruction via `strings.NewReplacer`);
* the `before` / `after` span-lifecycle callbacks, with the tracer
  modelled as an event log.
-/

namespace Otgorm

/-- Models a `time.Time` value by the canonical rendering its `String()`
method produces (the `time` package is external to this repository, so its
formatting is kept abstract as a field). `fmt`'s `%v` verb uses exactly this
rendering, because `time.Time` implements `Stringer`. -/
structure GoTime where
  canon : String
deriving DecidableEq

/-- The dynamically typed values this code can receive in `scope.SQLVars`:
plain scalars, strings, `time.Time`, the `database/sql` nullable wrappers,
`pq.NullTime`, and a nil interface. The payload of `NullFloat64` is carried
as the string `fmt`'s `%v` produces for it, since no claim depends on float
formatting itself. -/
inductive GoValue where
  | str (s : String)
  | int (n : Int)
  | bool (b : Bool)
  | time (t : GoTime)
  | nullTime (valid : Bool) (t : GoTime)
  | nullString (valid : Bool) (s : String)
  | nullInt64 (valid : Bool) (n : Int)
  | nullInt32 (valid : Bool) (n : Int)
  | nullBool (valid : Bool) (b : Bool)
  | nullFloat64 (valid : Bool) (f : String)
  | pqNullTime (valid : Bool) (t : GoTime)
  | goNil
deriving DecidableEq

/-- The `reflect.Kind`s relevant to `setStatement`'s outer switch. -/
inductive GoKind where
  | kString
  | kInt
  | kBool
  | kStruct
  | kInterface
  | kInvalid
deriving DecidableEq

/-- Models `reflect.ValueOf(val).Kind()` for a value held in an
`interface\x7b\x7d`. `reflect.ValueOf` returns a `Value` for the *concrete*
dynamic type stored in the interface, so the result is the concrete type's
kind: `String` for strings, `Int`/`Bool` for scalars, `Struct` for
`time.Time` and all the nullable wrapper structs, and `Invalid` for a nil
interface. It is never `reflect.Interface`. -/
def kindOf : GoValue → GoKind
  | .str _ => .kString
  | .int _ => .kInt
  | .bool _ => .kBool
  | .time _ => .kStruct
  | .nullTime _ _ => .kStruct
  | .nullString _ _ => .kStruct
  | .nullInt64 _ _ => .kStruct
  | .nullInt32 _ _ => .kStruct
  | .nullBool _ _ => .kStruct
  | .nullFloat64 _ _ => .kStruct
  | .pqNullTime _ _ => .kStruct
  | .goNil => .kInvalid

/-- Go's rendering of a boolean under `%v`. -/
def boolText (b : Bool) : String :=
  if b then "true" else "false"

/-- Models `fmt.Sprintf("%v", val)`: strings print verbatim, integers in
decimal, `time.Time` through its `Stringer`, and the wrapper structs as
`\x7bfield1 field2\x7d` with each field rendered by `%v` (struct fields that
implement `Stringer`, such as the `Time` field, use it). A nil interface
prints `<nil>`. -/
def govRender : GoValue → String
  | .str s => s
  | .int n => toString n
  | .bool b => boolText b
  | .time t => t.canon
  | .nullTime v t => "\x7b" ++ t.canon ++ " " ++ boolText v ++ "\x7d"
  | .nullString v s => "\x7b" ++ s ++ " " ++ boolText v ++ "\x7d"
  | .nullInt64 v n => "\x7b" ++ toString n ++ " " ++ boolText v ++ "\x7d"
  | .nullInt32 v n => "\x7b" ++ toString n ++ " " ++ boolText v ++ "\x7d"
  | .nullBool v b => "\x7b" ++ boolText b ++ " " ++ boolText v ++ "\x7d"
  | .nullFloat64 v f => "\x7b" ++ f ++ " " ++ boolText v ++ "\x7d"
  | .pqNullTime v t => "\x7b" ++ t.canon ++ " " ++ boolText v ++ "\x7d"
  | .goNil => "<nil>"

/-- Wrap a string in single quotes, as `fmt.Sprintf` with a quoted verb
does. -/
def squote (s : String) : String :=
  "\x27" ++ s ++ "\x27"

/-- The body of `setStatement`'s `case reflect.Interface:` branch
(part_000 lines 139-184): default `"NULL"`, overridden by the inner type
switch for `time.Time` and the valid nullable wrappers. -/
def interfaceCase : GoValue → String
  | .time t => squote t.canon
  | .nullTime v t => if v then squote t.canon else "NULL"
  | .nullString v s => if v then squote s else "NULL"
  | .nullInt64 v n => if v then toString n else "NULL"
  | .nullInt32 v n => if v then toString n else "NULL"
  | .nullBool v b => if v then boolText b else "NULL"
  | .nullFloat64 v f => if v then f else "NULL"
  | .pqNullTime v t => if v then squote t.canon else "NULL"
  | _ => "NULL"

/-- The per-argument literal text computed by one iteration of
`setStatement`'s loop (part_000 lines 127-187): switch on
`reflect.ValueOf(val).Kind()`, quoting strings, running the interface
branch for kind `Interface`, and falling back to `%v`. -/
def sqlValueOf (val : GoValue) : String :=
  match kindOf val with
  | .kString => squote (govRender val)
  | .kInterface => interfaceCase val
  | _ => govRender val

/-- Decimal rendering of a natural number, as `fmt.Sprintf` with the `%d`
verb produces for the loop index. The first argument is fuel bounding the
number of digits. -/
def decAux : Nat → Nat → List Char
  | 0, _ => []
  | fuel + 1, n =>
    if n < 10 then [Char.ofNat (48 + n)]
    else decAux fuel (n / 10) ++ [Char.ofNat (48 + n % 10)]

/-- Decimal rendering of a natural number as a string. -/
def dec (n : Nat) : String :=
  String.mk (decAux (n + 1) n)

/-- The replacement pairs `setStatement` builds (part_000 lines 125-191):
for each 1-indexed position `i`, the pair `($i, rendered value of
SQLVars[i-1])`, in ascending order of `i`. -/
def replacerPairs (args : List GoValue) : List (String × String) :=
  args.enum.map fun p => ("$" ++ dec (p.1 + 1), sqlValueOf p.2)

/-- One match attempt of `strings.Replacer` at the head of `cs`: the old
strings are compared in argument order and the first (nonempty) old that is
a prefix of `cs` wins; the result is its replacement together with the
number of characters of `cs` it consumes. `strings.NewReplacer`'s special
case for an empty old string is not modelled: every old string built by
this code is `$i`, which is nonempty. -/
def matchAt : List (String × String) → List Char → Option (String × Nat)
  | [], _ => none
  | (old, new) :: ps, cs =>
    if old.data ≠ [] ∧ old.data.isPrefixOf cs then some (new, old.data.length)
    else matchAt ps cs

/-- The single pass of `strings.Replacer.Replace`: scan left to right; at
each position either an old string matches (emit its replacement verbatim,
continue after the matched old text — the replacement is never rescanned)
or the character is copied. The first argument is fuel; each step consumes
at least one character, so fuel equal to the length of the input
suffices. -/
def goRepFuel (pairs : List (String × String)) : Nat → List Char → List Char
  | 0, cs => cs
  | _ + 1, [] => []
  | fuel + 1, c :: rest =>
    match matchAt pairs (c :: rest) with
    | some (new, n) => new.data ++ goRepFuel pairs fuel (List.drop (n - 1) rest)
    | none => c :: goRepFuel pairs fuel rest

/-- Models `strings.NewReplacer(pairs...).Replace(s)`. -/
def goReplace (pairs : List (String × String)) (s : String) : String :=
  String.mk (goRepFuel pairs s.data.length s.data)

/-- `setStatement` (part_000 lines 124-200): build the replacement pairs
from the SQL vars and apply the replacer to the SQL template. -/
def setStatement (sql : String) (sqlVars : List GoValue) : String :=
  goReplace (replacerPairs sqlVars) sql

/-! ## Span lifecycle

The opentracing API is modelled as an event log: starting a span, setting a
tag, and finishing a span each append one event. Span handles are numeric
identifiers issued by a counter, and a gorm `Scope`'s `Get`/`Set` store is
an association list (both reserved keys hold span handles). -/

/-- A tag value passed to `span.SetTag` / the `ext` helpers. -/
inductive TagValue where
  | str (s : String)
  | bool (b : Bool)
  | int (n : Int)
deriving DecidableEq

/-- One interaction with the tracing API. -/
inductive TraceEvent where
  | startSpan (opName : String) (parent : Nat) (span : Nat)
  | setTag (span : Nat) (key : String) (value : TagValue)
  | finish (span : Nat)
deriving DecidableEq

/-- The tracer side: the log of interactions so far plus the next fresh
span identifier. -/
structure TraceState where
  events : List TraceEvent
  nextId : Nat
deriving DecidableEq

/-- The per-operation state the callbacks see: the gorm scope's `Get`/`Set`
store together with the fields the callbacks read (`scope.SQL`,
`scope.SQLVars`, table name, rows affected, error state, dialect name and
instance id). -/
structure Scope where
  settings : List (String × Nat)
  sql : String
  sqlVars : List GoValue
  tableName : String
  rowsAffected : Int
  hasError : Bool
  errMsg : String
  dialectName : String
  instanceID : String
deriving DecidableEq

/-- Key under which the caller's parent span is attached
(`"opentracingParentSpan"`). -/
def parentSpanGormKey : String := "opentracingParentSpan"

/-- Key under which `before` stores the started span
(`"opentracingSpan"`). -/
def spanGormKey : String := "opentracingSpan"

/-- Association-list lookup backing `scope.Get`. -/
def lookupKey : List (String × Nat) → String → Option Nat
  | [], _ => none
  | (k, v) :: rest, key => if k = key then some v else lookupKey rest key

/-- `scope.Get(key)`. -/
def scopeGet (scope : Scope) (key : String) : Option Nat :=
  lookupKey scope.settings key

/-- `scope.Set(key, v)`: the new binding shadows any previous one. -/
def scopeSet (scope : Scope) (key : String) (v : Nat) : Scope :=
  { scope with settings := (key, v) :: scope.settings }

/-- The tracer interactions of `before` on the traced path: start a child
span named `"sql"`, then tag it with the dialect name (`ext.DBType`) and
the instance id (`ext.DBInstance`). -/
def beforeEvents (scope : Scope) (parentSpan sp : Nat) : List TraceEvent :=
  [TraceEvent.startSpan "sql" parentSpan sp,
   TraceEvent.setTag sp "db.type" (.str scope.dialectName),
   TraceEvent.setTag sp "db.instance" (.str scope.instanceID)]

/-- The `before` callback (part_000 lines 61-72): if no parent span is
attached, return untouched; otherwise start a child span, tag it, and
store it under `spanGormKey`. -/
def before (scope : Scope) (ts : TraceState) : Scope × TraceState :=
  match scopeGet scope parentSpanGormKey with
  | none => (scope, ts)
  | some parentSpan =>
    (scopeSet scope spanGormKey ts.nextId,
     ⟨ts.events ++ beforeEvents scope parentSpan ts.nextId, ts.nextId + 1⟩)

/-- `strings.Split(s, " ")[0]`: the prefix of `s` before the first
space. -/
def goSplitFirst (s : String) : String :=
  String.mk (s.data.takeWhile fun c => c ≠ ' ')

/-- Models `strings.ToUpper` character-wise; `Char.toUpper` agrees with
Go's mapping on ASCII, which is what SQL keywords consist of. -/
def goToUpper (s : String) : String :=
  String.mk (s.data.map Char.toUpper)

/-- The tracer interactions of `after` on the traced path (part_000 lines
80-97): derive the verb from the SQL when the supplied operation is empty,
set the error/table/method/count tags, add `db.err` only on error, set the
reconstructed statement, and finish the span last. -/
def afterEvents (scope : Scope) (sp : Nat) (operation : String) : List TraceEvent :=
  let op := if operation = "" then goToUpper (goSplitFirst scope.sql) else operation
  [TraceEvent.setTag sp "error" (.bool scope.hasError),
   TraceEvent.setTag sp "db.table" (.str scope.tableName),
   TraceEvent.setTag sp "db.method" (.str op),
   TraceEvent.setTag sp "db.count" (.int scope.rowsAffected)]
  ++ (if scope.hasError then [TraceEvent.setTag sp "db.err" (.str scope.errMsg)] else [])
  ++ [TraceEvent.setTag sp "db.statement" (.str (setStatement scope.sql scope.sqlVars)),
      TraceEvent.finish sp]

/-- The `after` callback (part_000 lines 74-98): if no span is stored,
return untouched; otherwise emit the tagging events and finish the span.
The scope is not modified: in particular the stored span key is not
cleared. -/
def after (scope : Scope) (ts : TraceState) (operation : String) : Scope × TraceState :=
  match scopeGet scope spanGormKey with
  | none => (scope, ts)
  | some sp => (scope, ⟨ts.events ++ afterEvents scope sp operation, ts.nextId⟩)

/-- Number of `startSpan` events in a log. -/
def countStartSpan : List TraceEvent → Nat
  | [] => 0
  | e :: es => (match e with | .startSpan _ _ _ => 1 | _ => 0) + countStartSpan es

/-- Number of `finish` events in a log. -/
def countFinish : List TraceEvent → Nat
  | [] => 0
  | e :: es => (match e with | .finish _ => 1 | _ => 0) + countFinish es

/-! ## Concrete fixtures used by witnesses and counterexamples -/

/-- A canonical `time.Time` rendering used in the time examples. -/
def sampleTime : GoTime := ⟨"2009-11-10 23:00:00 +0000 UTC"⟩

/-- A scope to which no parent span was attached. -/
def untracedScope : Scope :=
  ⟨[], "SELECT * FROM users", [], "users", 0, false, "", "postgres", "users0"⟩

/-- A scope with a parent span (handle 0) attached and a failed operation,
so that the error path of `after` is exercised. -/
def tracedScope : Scope :=
  ⟨[(parentSpanGormKey, 0)], "SELECT * FROM users WHERE id = $1",
   [GoValue.int 7], "users", 0, true, "record not found", "postgres", "users0"⟩

/-- A scope as the `row_query` path sees it: a span (handle 5) already
stored, lower-case raw SQL, no fixed verb. -/
def rawQueryScope : Scope :=
  ⟨[(spanGormKey, 5)], "select id from t", [], "t", 0, false, "", "postgres", "t0"⟩

/-- The state reached by running `before` and then `after` twice on a
scope, as in the double-finish scenario. -/
def runBeforeAfterTwice (scope : Scope) (ts : TraceState) (op : String) : TraceState :=
  let r1 := before scope ts
  let r2 := after r1.1 r1.2 op
  (after r2.1 r2.2 op).2

/-! ## Single-pass structure of the replacer

To state that the substitution is simultaneous, the output of the replacer
is decomposed into segments: each segment is one decision of the single
left-to-right pass over the template — either one template character copied
through, or one `(old, new)` pair applied, consuming `old` from the
template and emitting `new` verbatim. Emitted replacement text is itself
never one of the scanned positions, which is exactly the no-resubstitution
property. -/

/-- One decision of the replacer's pass. -/
inductive RepSeg where
  | lit (c : Char)
  | rep (old new : String)
deriving DecidableEq

/-- The template text a segment consumes. -/
def segSrc : RepSeg → List Char
  | .lit c => [c]
  | .rep old _ => old.data

/-- The output text a segment emits. -/
def segOut : RepSeg → List Char
  | .lit c => [c]
  | .rep _ new => new.data

/-- Every replacement segment uses one of the given pairs. -/
def segsFrom (pairs : List (String × String)) (segs : List RepSeg) : Prop :=
  ∀ sg ∈ segs, ∀ old new, sg = RepSeg.rep old new → (old, new) ∈ pairs

/-- Shape of every old string this code hands to the replacer: nonempty, a
dollar sign first, and decimal digits everywhere after it. -/
def patOk (o : String) : Prop :=
  o.data ≠ [] ∧ o.data[0]? = some '$' ∧
    ∀ i c, 0 < i → o.data[i]? = some c → c.isDigit

/-- Ten arguments, so that the template token `$10` is in range. -/
def argsTen : List GoValue :=
  [GoValue.int 1, GoValue.int 2, GoValue.int 3, GoValue.int 4, GoValue.int 5,
   GoValue.int 6, GoValue.int 7, GoValue.int 8, GoValue.int 9, GoValue.str "ten"]

end Otgorm

namespace Otgorm

/-! ## Supporting lemmas -/

/-- `reflect.ValueOf(val).Kind()` is never `reflect.Interface` for a value
taken out of `scope.SQLVars`: the kind is always that of the concrete
dynamic type. Hence the `case reflect.Interface:` branch of `setStatement`
is unreachable. -/
theorem kindOf_ne_kInterface (v : GoValue) : kindOf v ≠ GoKind.kInterface := by
  cases v <;> simp [kindOf]

theorem countStartSpan_append (a b : List TraceEvent) :
    countStartSpan (a ++ b) = countStartSpan a + countStartSpan b := by
  induction a with
  | nil => simp [countStartSpan]
  | cons e es ih => simp [countStartSpan, ih, Nat.add_assoc]

theorem countFinish_append (a b : List TraceEvent) :
    countFinish (a ++ b) = countFinish a + countFinish b := by
  induction a with
  | nil => simp [countFinish]
  | cons e es ih => simp [countFinish, ih, Nat.add_assoc]

theorem scopeGet_scopeSet_same (scope : Scope) (key : String) (v : Nat) :
    scopeGet (scopeSet scope key v) key = some v := by
  simp [scopeGet, scopeSet, lookupKey]

/-- Unfolding `before` on the traced path. -/
theorem before_some (scope : Scope) (ts : TraceState) (p : Nat)
    (hp : scopeGet scope parentSpanGormKey = some p) :
    before scope ts =
      (scopeSet scope spanGormKey ts.nextId,
       ⟨ts.events ++ beforeEvents scope p ts.nextId, ts.nextId + 1⟩) := by
  unfold before; rw [hp]

/-- Unfolding `after` on the traced path. -/
theorem after_some (scope : Scope) (ts : TraceState) (op : String) (sp : Nat)
    (hs : scopeGet scope spanGormKey = some sp) :
    after scope ts op = (scope, ⟨ts.events ++ afterEvents scope sp op, ts.nextId⟩) := by
  unfold after; rw [hs]

theorem countStartSpan_beforeEvents (scope : Scope) (p sp : Nat) :
    countStartSpan (beforeEvents scope p sp) = 1 := by
  simp [beforeEvents, countStartSpan]

theorem countFinish_beforeEvents (scope : Scope) (p sp : Nat) :
    countFinish (beforeEvents scope p sp) = 0 := by
  simp [beforeEvents, countFinish]

theorem countStartSpan_afterEvents (scope : Scope) (sp : Nat) (op : String) :
    countStartSpan (afterEvents scope sp op) = 0 := by
  cases hE : scope.hasError <;>
    simp [afterEvents, hE, countStartSpan, countStartSpan_append]

theorem countFinish_afterEvents (scope : Scope) (sp : Nat) (op : String) :
    countFinish (afterEvents scope sp op) = 1 := by
  cases hE : scope.hasError <;>
    simp [afterEvents, hE, countFinish, countFinish_append]

theorem finish_mem_afterEvents (scope : Scope) (sp : Nat) (op : String) :
    TraceEvent.finish sp ∈ afterEvents scope sp op := by
  cases hE : scope.hasError <;> simp [afterEvents, hE]

/-- A successful `matchAt` comes from one of the pairs: its old string is a
nonempty prefix of the scanned text and the returned count is that old
string's length. -/
theorem matchAt_spec (pairs : List (String × String)) (cs : List Char) (new : String) (n : Nat)
    (h : matchAt pairs cs = some (new, n)) :
    ∃ old : String, (old, new) ∈ pairs ∧ old.data ≠ [] ∧ old.data <+: cs ∧
      n = old.data.length := by
  induction pairs with
  | nil => simp [matchAt] at h
  | cons p ps ih =>
    obtain ⟨old, nw⟩ := p
    unfold matchAt at h
    split at h
    · rename_i hcond
      simp only [Option.some.injEq, Prod.mk.injEq] at h
      obtain ⟨rfl, rfl⟩ := h
      exact ⟨old, List.mem_cons_self _ _, hcond.1,
        List.isPrefixOf_iff_prefix.mp hcond.2, rfl⟩
    · obtain ⟨o, hmem, h1, h2, h3⟩ := ih h
      exact ⟨o, List.mem_cons_of_mem _ hmem, h1, h2, h3⟩

/-- The single pass of the replacer decomposes the template into segments:
each output piece is either one template character or the verbatim
replacement text of one pair, so emitted replacement text is never scanned
again. -/
theorem goRepFuel_decomp (pairs : List (String × String)) :
    ∀ fuel cs, List.length cs ≤ fuel →
    ∃ segs : List RepSeg,
      (segs.map segSrc).flatten = cs ∧
      (segs.map segOut).flatten = goRepFuel pairs fuel cs ∧
      segsFrom pairs segs := by
  intro fuel
  induction fuel with
  | zero =>
    intro cs hcs
    have hnil : cs = [] := List.eq_nil_of_length_eq_zero (Nat.le_zero.mp hcs)
    subst hnil
    exact ⟨[], by simp, by simp [goRepFuel], by simp [segsFrom]⟩
  | succ fuel ih =>
    intro cs hcs
    match cs with
    | [] => exact ⟨[], by simp, by simp [goRepFuel], by simp [segsFrom]⟩
    | c :: rest =>
      cases hm : matchAt pairs (c :: rest) with
      | none =>
        obtain ⟨segs, h1, h2, h3⟩ := ih rest (by simpa using hcs)
        refine ⟨.lit c :: segs, by simp [segSrc, h1], ?_, ?_⟩
        · simp [goRepFuel, hm, segOut, h2]
        · intro sg hsg old new hEq
          rcases List.mem_cons.mp hsg with hh | hh
          · subst hh; cases hEq
          · exact h3 sg hh old new hEq
      | some pr =>
        obtain ⟨new, n⟩ := pr
        obtain ⟨old, hmem, hne, hpre, hn⟩ := matchAt_spec pairs (c :: rest) new n hm
        obtain ⟨t, ht⟩ := hpre
        obtain ⟨o, os, ho⟩ : ∃ o os, old.data = o :: os := by
          cases hd : old.data with
          | nil => exact absurd hd hne
          | cons o os => exact ⟨o, os, rfl⟩
        have hrest : rest = os ++ t := by
          rw [ho] at ht
          injection ht with _ h2
          exact h2.symm
        have hdrop : List.drop (n - 1) rest = t := by
          rw [hrest, hn, ho]
          simp [List.drop_left]
        have hol : 1 ≤ List.length old.data := by rw [ho]; simp
        have hlen : List.length t ≤ fuel := by
          have hlt := congrArg List.length ht
          simp only [List.length_append, List.length_cons] at hlt
          simp only [List.length_cons] at hcs
          omega
        obtain ⟨segs, h1, h2, h3⟩ := ih t hlen
        refine ⟨.rep old new :: segs, ?_, ?_, ?_⟩
        · simp [segSrc, h1, ht]
        · simp [goRepFuel, hm, segOut, h2, hdrop]
        · intro sg hsg oldx newx hEq
          rcases List.mem_cons.mp hsg with hh | hh
          · subst hh; cases hEq; exact hmem
          · exact h3 sg hh oldx newx hEq

theorem goRepFuel_nil (pairs : List (String × String)) (fuel : Nat) :
    goRepFuel pairs fuel [] = [] := by
  cases fuel <;> rfl

theorem goRepFuel_cons_none (pairs : List (String × String)) (fuel : Nat)
    (c : Char) (rest : List Char) (hm : matchAt pairs (c :: rest) = none) :
    goRepFuel pairs (fuel + 1) (c :: rest) = c :: goRepFuel pairs fuel rest := by
  simp [goRepFuel, hm]

theorem goRepFuel_cons_some (pairs : List (String × String)) (fuel : Nat)
    (c : Char) (rest : List Char) (new : String) (n : Nat)
    (hm : matchAt pairs (c :: rest) = some (new, n)) :
    goRepFuel pairs (fuel + 1) (c :: rest)
      = new.data ++ goRepFuel pairs fuel (List.drop (n - 1) rest) := by
  simp [goRepFuel, hm]

/-- The result of `goRepFuel` does not depend on the fuel, as long as the
fuel covers the input length: every step consumes at least one
character. -/
theorem goRepFuel_fuel_irrel (pairs : List (String × String)) :
    ∀ f₁ f₂ cs, List.length cs ≤ f₁ → List.length cs ≤ f₂ →
      goRepFuel pairs f₁ cs = goRepFuel pairs f₂ cs := by
  intro f₁
  induction f₁ with
  | zero =>
    intro f₂ cs h1 _
    have hnil : cs = [] := List.eq_nil_of_length_eq_zero (Nat.le_zero.mp h1)
    subst hnil
    rw [goRepFuel_nil, goRepFuel_nil]
  | succ f₁ ih =>
    intro f₂ cs h1 h2
    match cs with
    | [] => rw [goRepFuel_nil, goRepFuel_nil]
    | c :: rest =>
      cases f₂ with
      | zero => simp at h2
      | succ g =>
        simp only [List.length_cons] at h1 h2
        cases hm : matchAt pairs (c :: rest) with
        | none =>
          rw [goRepFuel_cons_none pairs f₁ c rest hm,
            goRepFuel_cons_none pairs g c rest hm]
          exact congrArg (c :: ·) (ih g rest (by omega) (by omega))
        | some pr =>
          obtain ⟨new, n⟩ := pr
          rw [goRepFuel_cons_some pairs f₁ c rest new n hm,
            goRepFuel_cons_some pairs g c rest new n hm]
          have hd : List.length (List.drop (n - 1) rest) ≤ rest.length := by
            simp [List.length_drop]
          exact congrArg (new.data ++ ·) (ih g _ (by omega) (by omega))

/-- A `patOk`-shaped old string cannot match across a boundary whose next
character is a dollar sign: being a prefix of `s ++ '$' :: r` is the same
as being a prefix of `s`, for nonempty `s`. -/
theorem patOk_prefix_iff (old : String) (hp : patOk old) (s r : List Char)
    (hs : s ≠ []) :
    old.data <+: s ++ '$' :: r ↔ old.data <+: s := by
  constructor
  · intro h
    by_cases hlen : old.data.length ≤ s.length
    · have h' := List.prefix_iff_eq_take.mp h
      rw [List.take_append_of_le_length hlen] at h'
      rw [h']
      exact List.take_prefix _ s
    · exfalso
      obtain ⟨t, ht⟩ := h
      have hslt : s.length < old.data.length := Nat.lt_of_not_le hlen
      have h1 : (old.data ++ t)[s.length]? = old.data[s.length]? :=
        List.getElem?_append_left hslt
      have h2 : (s ++ '$' :: r)[s.length]? = some '$' := by
        rw [List.getElem?_append_right (Nat.le_refl _)]
        simp
      rw [ht] at h1
      have h3 : old.data[s.length]? = some '$' := by rw [← h1, h2]
      have hpos : 0 < s.length := List.length_pos.mpr hs
      exact absurd (hp.2.2 s.length '$' hpos h3) (by decide)
  · intro h
    exact h.trans (List.prefix_append s ('$' :: r))

/-- Matching at a position inside the part before a `$` boundary agrees
with matching against that part alone. -/
theorem matchAt_append_dollar (pairs : List (String × String))
    (hpat : ∀ p ∈ pairs, patOk p.1) (s r : List Char) (hs : s ≠ []) :
    matchAt pairs (s ++ '$' :: r) = matchAt pairs s := by
  induction pairs with
  | nil => rfl
  | cons p ps ih =>
    obtain ⟨old, new⟩ := p
    have hp : patOk old := hpat (old, new) (List.mem_cons_self _ _)
    have hiff : old.data.isPrefixOf (s ++ '$' :: r) = old.data.isPrefixOf s := by
      rw [Bool.eq_iff_iff, List.isPrefixOf_iff_prefix, List.isPrefixOf_iff_prefix]
      exact patOk_prefix_iff old hp s r hs
    simp only [matchAt, hiff]
    split
    · rfl
    · exact ih fun q hq => hpat q (List.mem_cons_of_mem _ hq)

/-- No `patOk`-shaped old string matches at a position whose first
character is not a dollar sign. -/
theorem matchAt_nondollar (pairs : List (String × String))
    (hpat : ∀ p ∈ pairs, patOk p.1) (c : Char) (hc : c ≠ '$') (l : List Char) :
    matchAt pairs (c :: l) = none := by
  induction pairs with
  | nil => rfl
  | cons p ps ih =>
    obtain ⟨old, new⟩ := p
    have hp : patOk old := hpat (old, new) (List.mem_cons_self _ _)
    obtain ⟨o0, os, ho⟩ : ∃ o0 os, old.data = o0 :: os := by
      cases hd : old.data with
      | nil => exact absurd hd hp.1
      | cons o0 os => exact ⟨o0, os, rfl⟩
    have h0 : o0 = '$' := by
      have hx := hp.2.1
      rw [ho] at hx
      simpa using hx
    have hpre : old.data.isPrefixOf (c :: l) = false := by
      rw [ho, h0]
      simp [List.isPrefixOf, Ne.symm hc]
    simp only [matchAt, hpre]
    rw [if_neg (by simp)]
    exact ih fun q hq => hpat q (List.mem_cons_of_mem _ hq)

/-- Every character produced by the decimal renderer is a digit. -/
theorem decAux_isDigit : ∀ fuel n c, c ∈ decAux fuel n → c.isDigit := by
  intro fuel
  induction fuel with
  | zero => intro n c h; simp [decAux] at h
  | succ fuel ih =>
    intro n c h
    unfold decAux at h
    split at h
    · rename_i hlt
      simp at h
      subst h
      interval_cases n <;> decide
    · rcases List.mem_append.mp h with h1 | h1
      · exact ih _ c h1
      · simp at h1
        subst h1
        have hm : n % 10 < 10 := Nat.mod_lt _ (by omega)
        set m := n % 10 with hm2
        interval_cases m <;> decide

/-- Every old string `setStatement` builds is a dollar sign followed by
digits. -/
theorem replacerPairs_patOk (args : List GoValue) :
    ∀ p ∈ replacerPairs args, patOk p.1 := by
  intro p hp
  obtain ⟨q, _, rfl⟩ := List.mem_map.mp hp
  have hd : ("$" ++ dec (q.1 + 1)).data = '$' :: (dec (q.1 + 1)).data := by
    rw [String.data_append]; rfl
  refine ⟨?_, ?_, ?_⟩
  · rw [hd]; simp
  · rw [hd]; simp
  · intro i c hi hc
    rw [hd] at hc
    cases i with
    | zero => omega
    | succ j =>
      rw [List.getElem?_cons_succ] at hc
      obtain ⟨hj, rfl⟩ := List.getElem?_eq_some.mp hc
      exact decAux_isDigit _ _ _ (List.getElem_mem hj)

/-- The replacer's pass splits at a position followed by a dollar sign:
patterns start with `$` and continue with digits only, so no match begun
inside `pre` can extend across the boundary, and the two parts are
processed independently. -/
theorem goRepFuel_split_dollar (pairs : List (String × String))
    (hpat : ∀ p ∈ pairs, patOk p.1) :
    ∀ fuel pre r, List.length pre ≤ fuel →
      goRepFuel pairs (List.length (pre ++ '$' :: r)) (pre ++ '$' :: r)
        = goRepFuel pairs fuel pre
          ++ goRepFuel pairs (List.length ('$' :: r)) ('$' :: r) := by
  intro fuel
  induction fuel with
  | zero =>
    intro pre r h1
    have hnil : pre = [] := List.eq_nil_of_length_eq_zero (Nat.le_zero.mp h1)
    subst hnil
    simp [goRepFuel_nil]
  | succ fuel ih =>
    intro pre r h1
    match pre with
    | [] => simp [goRepFuel_nil]
    | c :: pr =>
      have hma := matchAt_append_dollar pairs hpat (c :: pr) r (by simp)
      rw [List.cons_append] at hma
      simp only [List.cons_append, List.length_cons]
      simp only [List.length_cons] at h1
      cases hm : matchAt pairs (c :: pr) with
      | none =>
        rw [goRepFuel_cons_none pairs _ c (pr ++ '$' :: r) (hma.trans hm),
          goRepFuel_cons_none pairs fuel c pr hm, List.cons_append]
        exact congrArg (c :: ·) (ih pr r (by omega))
      | some pr2 =>
        obtain ⟨new, n⟩ := pr2
        obtain ⟨old, _, hne, hpre, hn⟩ := matchAt_spec pairs (c :: pr) new n hm
        have hlen : n - 1 ≤ pr.length := by
          have := hpre.length_le
          simp only [List.length_cons] at this
          omega
        rw [goRepFuel_cons_some pairs _ c (pr ++ '$' :: r) new n (hma.trans hm),
          goRepFuel_cons_some pairs fuel c pr new n hm]
        rw [List.drop_append_of_le_length hlen]
        rw [List.append_assoc]
        refine congrArg (new.data ++ ·) ?_
        have hfi : goRepFuel pairs (List.length (pr ++ '$' :: r))
            (List.drop (n - 1) pr ++ '$' :: r)
            = goRepFuel pairs (List.length (List.drop (n - 1) pr ++ '$' :: r))
              (List.drop (n - 1) pr ++ '$' :: r) := by
          apply goRepFuel_fuel_irrel
          · simp only [List.length_append, List.length_drop]
            omega
          · exact Nat.le_refl _
        rw [hfi]
        exact ih (List.drop (n - 1) pr) r (by simp only [List.length_drop]; omega)

/-- At a position where the template reads `$10`, the replacer matches the
pair for `$1` first: the pairs are tried in argument order and `$1` comes
before `$10`. -/
theorem matchAt_dollar_ten (a : GoValue) (rest : List GoValue) (suf : List Char) :
    matchAt (replacerPairs (a :: rest)) ('$' :: '1' :: '0' :: suf)
      = some (sqlValueOf a, 2) := by
  have hhead : replacerPairs (a :: rest)
      = ("$" ++ dec 1, sqlValueOf a) :: (List.enumFrom 1 rest).map
          (fun p => ("$" ++ dec (p.1 + 1), sqlValueOf p.2)) := rfl
  have hdec : ("$" ++ dec 1).data = ['$', '1'] := by decide
  rw [hhead]
  simp [matchAt, hdec, List.isPrefixOf]

end Otgorm

namespace Otgorm

/-! ## Claims -/

/-- C6: applied to the template `SELECT * FROM t WHERE id = $1 AND name =
$2` with arguments `[5, "ann"]`, `setStatement` returns exactly
`SELECT * FROM t WHERE id = 5 AND name = 'ann'`: the integer is rendered
unquoted by the default `%v` branch, the string single-quoted, and the
rest of the template is untouched. -/
theorem setStatement_example_five_ann :
    setStatement "SELECT * FROM t WHERE id = $1 AND name = $2"
      [GoValue.int 5, GoValue.str "ann"] =
      "SELECT * FROM t WHERE id = 5 AND name = \x27ann\x27" := by decide

/-- C5: an argument of dynamic type string is rendered as its characters
verbatim between single quotes, with no escaping of embedded quotes; in
particular `O'Reilly` renders as `'O'Reilly'`. -/
theorem string_arg_quoted_verbatim :
    (∀ s : String, sqlValueOf (GoValue.str s) = "\x27" ++ s ++ "\x27") ∧
    setStatement "name = $1" [GoValue.str "O\x27Reilly"] =
      "name = \x27O\x27Reilly\x27" :=
  ⟨fun _ => rfl, by decide⟩

/-- C1 (code bug): an invalid nullable wrapper does NOT render as `NULL`.
`reflect.ValueOf(val).Kind()` is `Struct` for every `sql.NullX` and
`pq.NullTime` value (never `Interface`), so the `case reflect.Interface:`
branch holding the `NULL` default is dead code and each wrapper falls into
the default branch, printing Go's `%v` struct rendering. Every one of the
seven wrapper types with validity `false` is evaluated here. -/
theorem invalid_wrapper_not_null :
    setStatement "x = $1" [GoValue.nullInt64 false 0] = "x = \x7b0 false\x7d" ∧
    setStatement "x = $1" [GoValue.nullInt64 false 0] ≠ "x = NULL" ∧
    setStatement "x = $1" [GoValue.nullInt32 false 0] = "x = \x7b0 false\x7d" ∧
    setStatement "x = $1" [GoValue.nullString false "s"] = "x = \x7bs false\x7d" ∧
    setStatement "x = $1" [GoValue.nullBool false false] = "x = \x7bfalse false\x7d" ∧
    setStatement "x = $1" [GoValue.nullFloat64 false "0"] = "x = \x7b0 false\x7d" ∧
    setStatement "x = $1" [GoValue.nullTime false sampleTime] =
      "x = \x7b2009-11-10 23:00:00 +0000 UTC false\x7d" ∧
    setStatement "x = $1" [GoValue.pqNullTime false sampleTime] =
      "x = \x7b2009-11-10 23:00:00 +0000 UTC false\x7d" := by decide

/-- C2 (code bug): a `time.Time` argument is NOT single-quoted: its kind is
`Struct`, so it takes the default `%v` branch, which renders the canonical
form without quotes; a valid `sql.NullTime` renders as the `%v` struct text
instead of the quoted inner time. The quoted form required by the claim is
shown to differ. -/
theorem time_arg_not_quoted :
    setStatement "t = $1" [GoValue.time sampleTime] =
      "t = 2009-11-10 23:00:00 +0000 UTC" ∧
    setStatement "t = $1" [GoValue.time sampleTime] ≠
      "t = " ++ squote sampleTime.canon ∧
    setStatement "t = $1" [GoValue.nullTime true sampleTime] =
      "t = \x7b2009-11-10 23:00:00 +0000 UTC true\x7d" := by decide

/-- C7: on a scope with no parent span attached (and hence no stored
span), `before` returns the state untouched and so does the `after` that
follows it: zero tracer interactions on the whole before/after round. -/
theorem untraced_before_after_noop (scope : Scope) (ts : TraceState) (op : String)
    (hp : scopeGet scope parentSpanGormKey = none)
    (hs : scopeGet scope spanGormKey = none) :
    before scope ts = (scope, ts) ∧
    after (before scope ts).1 (before scope ts).2 op = (scope, ts) := by
  have hb : before scope ts = (scope, ts) := by unfold before; rw [hp]
  refine ⟨hb, ?_⟩
  rw [hb]
  unfold after; rw [hs]

/-- C7 witness: the untraced scope with an empty trace state. -/
theorem untraced_before_after_noop_witness :
    before untracedScope ⟨[], 0⟩ = (untracedScope, ⟨[], 0⟩) ∧
    after (before untracedScope ⟨[], 0⟩).1 (before untracedScope ⟨[], 0⟩).2 "SELECT" =
      (untracedScope, ⟨[], 0⟩) :=
  untraced_before_after_noop untracedScope ⟨[], 0⟩ "SELECT" (by decide) (by decide)

/-- C8: on a scope with a parent span attached, `before` followed by
`after` emits exactly one `startSpan` and exactly one `finish`, and the
finish is on the span created by `before` (handle `ts.nextId`). The scope's
error flag is left arbitrary, so the finish happens whether or not the
operation failed. -/
theorem traced_one_start_one_finish (scope : Scope) (ts : TraceState) (op : String) (p : Nat)
    (hp : scopeGet scope parentSpanGormKey = some p) :
    countStartSpan ((after (before scope ts).1 (before scope ts).2 op).2.events)
      = countStartSpan ts.events + 1 ∧
    countFinish ((after (before scope ts).1 (before scope ts).2 op).2.events)
      = countFinish ts.events + 1 ∧
    TraceEvent.finish ts.nextId ∈ (after (before scope ts).1 (before scope ts).2 op).2.events := by
  rw [before_some scope ts p hp]
  rw [after_some (scopeSet scope spanGormKey ts.nextId)
        ⟨ts.events ++ beforeEvents scope p ts.nextId, ts.nextId + 1⟩ op ts.nextId
        (scopeGet_scopeSet_same scope spanGormKey ts.nextId)]
  refine ⟨?_, ?_, ?_⟩
  · simp [countStartSpan_append, countStartSpan_beforeEvents, countStartSpan_afterEvents]
  · simp [countFinish_append, countFinish_beforeEvents, countFinish_afterEvents]
  · simp [List.mem_append, finish_mem_afterEvents]

/-- C8 witness: a traced scope whose operation failed (`hasError = true`),
showing the span is still finished. -/
theorem traced_one_start_one_finish_witness :
    countStartSpan ((after (before tracedScope ⟨[], 1⟩).1 (before tracedScope ⟨[], 1⟩).2 "SELECT").2.events)
      = countStartSpan [] + 1 ∧
    countFinish ((after (before tracedScope ⟨[], 1⟩).1 (before tracedScope ⟨[], 1⟩).2 "SELECT").2.events)
      = countFinish [] + 1 ∧
    TraceEvent.finish 1 ∈ (after (before tracedScope ⟨[], 1⟩).1 (before tracedScope ⟨[], 1⟩).2 "SELECT").2.events :=
  traced_one_start_one_finish tracedScope ⟨[], 1⟩ "SELECT" 0 (by decide)

/-- C9: when `after` is invoked with an empty operation verb and finds a
stored span, the `db.method` tag it sets is the first space-delimited token
of the SQL template, upper-cased. -/
theorem empty_verb_derives_method (scope : Scope) (ts : TraceState) (sp : Nat)
    (hs : scopeGet scope spanGormKey = some sp) :
    TraceEvent.setTag sp "db.method" (.str (goToUpper (goSplitFirst scope.sql)))
      ∈ (after scope ts "").2.events := by
  rw [after_some scope ts "" sp hs]
  cases hE : scope.hasError <;> simp [afterEvents, hE]

/-- C9 witness: the raw row-query scope with template `select id from t`
yields the derived method tag `SELECT`. -/
theorem empty_verb_derives_method_witness :
    goToUpper (goSplitFirst "select id from t") = "SELECT" ∧
    TraceEvent.setTag 5 "db.method" (.str (goToUpper (goSplitFirst rawQueryScope.sql)))
      ∈ (after rawQueryScope ⟨[], 6⟩ "").2.events :=
  ⟨by decide, empty_verb_derives_method rawQueryScope ⟨[], 6⟩ 5 (by decide)⟩

/-- C3 counterexample: on a scope where `before` stored a span, invoking
`after` twice finishes the span twice — the stored span key is never
cleared, so the second invocation finds the same span again. This refutes
"at most once". -/
theorem after_twice_double_finish_cex :
    countFinish (runBeforeAfterTwice tracedScope ⟨[], 1⟩ "SELECT").events = 2 ∧
    ¬ countFinish (runBeforeAfterTwice tracedScope ⟨[], 1⟩ "SELECT").events ≤ 1 := by
  decide

/-- C3 amended: for every scope on which `before` stored an active span
(parent attached), invoking `after` twice calls `span.Finish` exactly
twice — once per invocation; the second invocation is not a no-op, because
`after` does not clear the span key on finish. -/
theorem after_twice_finishes_twice (scope : Scope) (ts : TraceState) (op : String) (p : Nat)
    (hp : scopeGet scope parentSpanGormKey = some p) :
    countFinish (runBeforeAfterTwice scope ts op).events = countFinish ts.events + 2 := by
  simp only [runBeforeAfterTwice]
  rw [before_some scope ts p hp]
  simp only [after_some (scopeSet scope spanGormKey ts.nextId) _ op ts.nextId
    (scopeGet_scopeSet_same scope spanGormKey ts.nextId)]
  simp [countFinish_append, countFinish_beforeEvents, countFinish_afterEvents]

/-- C3 amended witness: the traced scope, run through before/after/after,
shows exactly two finish events. -/
theorem after_twice_finishes_twice_witness :
    countFinish (runBeforeAfterTwice tracedScope ⟨[], 1⟩ "SELECT").events
      = countFinish [] + 2 :=
  after_twice_finishes_twice tracedScope ⟨[], 1⟩ "SELECT" 0 (by decide)

/-- C4: substitution is simultaneous and single-pass. For every template
and argument list the output decomposes into segments, each either one
template character copied through or the verbatim replacement text of one
replacer pair consumed from the template — so text emitted for one
argument (even if it contains some `$k`) is never scanned again or
replaced by another argument's value. The concrete conjunct shows it: the
first argument's rendered value contains `$2`, and that `$2` survives in
the output while the template's own `$2` is substituted. -/
theorem substitution_simultaneous_single_pass :
    (∀ (tpl : String) (args : List GoValue),
      ∃ segs : List RepSeg,
        (segs.map segSrc).flatten = tpl.data ∧
        (segs.map segOut).flatten = (setStatement tpl args).data ∧
        segsFrom (replacerPairs args) segs) ∧
    setStatement "a = $1 b = $2" [GoValue.str "$2", GoValue.str "x"] =
      "a = \x27$2\x27 b = \x27x\x27" := by
  constructor
  · intro tpl args
    exact goRepFuel_decomp (replacerPairs args) tpl.data.length tpl.data (Nat.le_refl _)
  · decide

/-- C10: in any template containing the token `$10`, with at least ten
arguments, that occurrence is consumed by the pair for `$1` (the pairs are
supplied in ascending position order and the replacer tries old strings in
argument order), so the output contains the rendering of argument 1
followed by the literal character `0` — not the rendering of argument
10. -/
theorem dollar_ten_takes_arg_one (args : List GoValue) (pre suf : List Char)
    (h10 : 10 ≤ List.length args) :
    setStatement (String.mk (pre ++ '$' :: '1' :: '0' :: suf)) args
      = String.mk (goRepFuel (replacerPairs args) (List.length pre) pre
          ++ (sqlValueOf (args.headD GoValue.goNil)).data
          ++ '0' :: goRepFuel (replacerPairs args) (List.length suf) suf) := by
  obtain ⟨a, rest, rfl⟩ : ∃ a rest, args = a :: rest := by
    cases args with
    | nil => simp at h10
    | cons a rest => exact ⟨a, rest, rfl⟩
  have hpat := replacerPairs_patOk (a :: rest)
  show String.mk (goRepFuel (replacerPairs (a :: rest))
      (List.length (pre ++ '$' :: '1' :: '0' :: suf))
      (pre ++ '$' :: '1' :: '0' :: suf)) = _
  congr 1
  rw [goRepFuel_split_dollar (replacerPairs (a :: rest)) hpat (List.length pre) pre
    ('1' :: '0' :: suf) (Nat.le_refl _)]
  have hb : goRepFuel (replacerPairs (a :: rest))
      (List.length ('$' :: '1' :: '0' :: suf)) ('$' :: '1' :: '0' :: suf)
      = (sqlValueOf a).data
        ++ '0' :: goRepFuel (replacerPairs (a :: rest)) (List.length suf) suf := by
    simp only [List.length_cons]
    rw [goRepFuel_cons_some _ _ _ _ _ _ (matchAt_dollar_ten a rest suf)]
    have hdrop : List.drop (2 - 1) ('1' :: '0' :: suf) = '0' :: suf := rfl
    rw [hdrop]
    rw [goRepFuel_cons_none _ _ _ _
      (matchAt_nondollar (replacerPairs (a :: rest)) hpat '0' (by decide) suf)]
    refine congrArg ((sqlValueOf a).data ++ ·) (congrArg ('0' :: ·) ?_)
    exact goRepFuel_fuel_irrel _ _ _ suf (by omega) (Nat.le_refl _)
  rw [hb]
  simp [List.append_assoc]

/-- C10 witness: ten arguments and the template `$10`: the output is the
rendering of argument 1 (`1`) followed by `0`, giving `10`, and not the
rendering of argument 10 (which would be `'ten'`). -/
theorem dollar_ten_takes_arg_one_witness :
    10 ≤ List.length argsTen ∧
    setStatement "$10" argsTen = "10" ∧
    setStatement "$10" argsTen ≠ squote "ten" :=
  ⟨by decide,
   (dollar_ten_takes_arg_one argsTen [] [] (by decide)).trans (by decide),
   by decide⟩

end Otgorm
